import Mathlib

/-!
Verification of the tabular multiple-sequence-alignment container
(`TabularMSA`) of this repository.  The repository's visible sources are the
unit tests (`skbio/alignment/tests/test_tabular_msa.py`); the container
implementation itself is not among the visible files, so every operation
below is modelled from the natural-language specification, cross-checked
against the concrete behaviors pinned by the visible tests.
-/

namespace Skbio

/-- Modelled from the spec: the dynamic values that may appear as row keys,
metadata-field values, or resolved sort values (the implementation of the
value universe, Python's object model, is not among the visible sources).
`num` covers Python numbers (ints and bools, which compare numerically),
`str` covers strings, `noneV` is Python's `None` (equality-comparable but
unorderable), `dict` stands for an unhashable, unorderable object. -/
inductive Val where
  | num : Int → Val
  | str : String → Val
  | noneV : Val
  | dict : Val
deriving DecidableEq, Repr

/-- Three-way comparison derived from a linear order. -/
def cmp3 {α : Type} [LinearOrder α] (a b : α) : Ordering :=
  if a < b then Ordering.lt else if b < a then Ordering.gt else Ordering.eq

/-- Kind rank used to extend the partial comparison on `Val` to a total one. -/
def Val.rank : Val → Nat
  | Val.num _ => 0
  | Val.str _ => 1
  | Val.noneV => 2
  | Val.dict => 3

/-- A total comparison on `Val`: numbers and strings by their natural order,
everything else by kind rank.  It agrees with the Python-faithful partial
comparison `cmpVal` wherever the latter is defined, and exists only to drive
the stable sorting machinery. -/
def valCompare : Val → Val → Ordering
  | Val.num a, Val.num b => cmp3 a b
  | Val.str a, Val.str b => cmp3 a b
  | v, w => cmp3 v.rank w.rank

/-- Modelled from the spec: the Python-faithful partial comparison between
resolved sort values.  Numbers compare with numbers and strings with
strings; any other pairing is unorderable (`none`), which the sort engine
surfaces as a type error. -/
def cmpVal : Val → Val → Option Ordering
  | Val.num a, Val.num b => some (cmp3 a b)
  | Val.str a, Val.str b => some (cmp3 a b)
  | _, _ => none

/-- Modelled from the spec: keys must be hashable; the `dict` value stands
for the unhashable objects of the tests. -/
def Val.hashable : Val → Bool
  | Val.dict => false
  | _ => true

/-- Modelled from the spec: the Row Capability Contract.  A row carries an
element-type tag, a character sequence, its own gap-character set, and a
metadata mapping from field names to values. -/
structure Row where
  dtype : String
  chars : List Char
  gapChars : List Char
  metadata : List (String × Val)
deriving DecidableEq, Repr

/-- Number of positions of a row. -/
def Row.len (r : Row) : Nat := r.chars.length

/-- Metadata-field lookup of the Row Capability Contract. -/
def Row.field (r : Row) (name : String) : Option Val :=
  (r.metadata.lookup name)

/-- Whether the character at position `i` of the row is classified as a gap
by the row's own gap-character set. -/
def Row.isGapAt (r : Row) (i : Nat) : Bool :=
  match r.chars.get? i with
  | some c => r.gapChars.contains c
  | none => false

/-- Modelled from the spec: the tabular container.  `cls` records the
concrete class (base container or subclass) and plays no role in equality;
`keys` is the optional Key Index (resolved key sequence, one key per row);
`metadata` is the optional free-form metadata mapping. -/
structure TabularMSA where
  cls : String
  seqs : List Row
  keys : Option (List Val)
  metadata : Option (List (String × Val))
deriving DecidableEq, Repr

/-- Row count of the container (also its `len()`). -/
def TabularMSA.rowCount (m : TabularMSA) : Nat := m.seqs.length

/-- Position count: the common row length, or 0 for a container with no
rows. -/
def TabularMSA.posCount (m : TabularMSA) : Nat :=
  match m.seqs with
  | [] => 0
  | r :: _ => r.len

/-- `len()` of the container. -/
def TabularMSA.msaLen (m : TabularMSA) : Nat := m.seqs.length

/-- Boolean truthiness of the container. -/
def TabularMSA.msaBool (m : TabularMSA) : Bool :=
  decide (0 < m.rowCount) && decide (0 < m.posCount)

/-- Element-type tag of the container: the first row's tag, or unset. -/
def TabularMSA.dtypeTag (m : TabularMSA) : Option String :=
  m.seqs.head?.map Row.dtype

/-- Modelled from the spec: the error taxonomy of §7. -/
inductive Err where
  | typeMismatch
  | lengthMismatch
  | configConflict
  | countMismatch
  | duplicateKey
  | unhashableKey
  | operationError
  | lookupFailure
  | valueInvalid
  | unorderable
deriving DecidableEq, Repr

/-- The two recognized axes of the gap-frequency calculator. -/
inductive Axis where
  | sequence
  | position
deriving DecidableEq, Repr

/-- Gaps within one row (its count of gap-classified positions). -/
def Row.gapCount (r : Row) : Nat :=
  (r.chars.filter (fun c => r.gapChars.contains c)).length

/-- Gaps within one column: the number of rows whose character at that
column is classified as a gap by the row's own gap-character set. -/
def TabularMSA.colGapCount (m : TabularMSA) (c : Nat) : Nat :=
  (m.seqs.filter (fun r => r.isGapAt c)).length

/-- Modelled from the spec: absolute gap frequencies.  The axis names the
collapsed axis, as pinned by the visible tests: `axis="sequence"` collapses
the sequence axis and yields one count per column, `axis="position"`
collapses the position axis and yields one count per row. -/
def TabularMSA.gapFrequencies (m : TabularMSA) (ax : Axis) : List Nat :=
  match ax with
  | Axis.sequence => (List.range m.posCount).map m.colGapCount
  | Axis.position => m.seqs.map Row.gapCount

/-- Modelled from the spec: relative gap frequencies.  Each absolute count
is divided by the size of the orthogonal axis; a zero denominator yields
the not-a-number sentinel, modelled as `none`. -/
def TabularMSA.gapFrequenciesRel (m : TabularMSA) (ax : Axis) :
    List (Option Rat) :=
  match ax with
  | Axis.sequence =>
      (m.gapFrequencies Axis.sequence).map (fun n =>
        if m.rowCount = 0 then none else some ((n : Rat) / (m.rowCount : Rat)))
  | Axis.position =>
      (m.gapFrequencies Axis.position).map (fun n =>
        if m.posCount = 0 then none else some ((n : Rat) / (m.posCount : Rat)))

/-- Modelled from the spec: a minter derives a key from a row, either by a
metadata-field name or by a row-to-key function. -/
inductive Minter where
  | byField : String → Minter
  | byFun : (Row → Val) → Minter

/-- Applying a minter to a row; a field minter fails on a row lacking the
field. -/
def Minter.apply (mn : Minter) (r : Row) : Option Val :=
  match mn with
  | Minter.byField name => r.field name
  | Minter.byFun f => some (f r)

/-- Boolean pairwise-distinctness of a key sequence. -/
def nodupB : List Val → Bool
  | [] => true
  | k :: ks => (decide (k ∉ ks)) && nodupB ks

/-- Modelled from the spec: validation of a resolved key sequence against a
row count — count match, hashability of every key, uniqueness. -/
def checkKeys (ks : List Val) (nrows : Nat) : Option Err :=
  if ks.length ≠ nrows then some Err.countMismatch
  else if ¬ (ks.all Val.hashable) then some Err.unhashableKey
  else if ¬ (nodupB ks) then some Err.duplicateKey
  else none

/-- Modelled from the spec (§9): the tagged union of the three mutually
exclusive ways of producing keys. -/
inductive KeySource where
  | noKeys
  | explicitKeys : List Val → KeySource
  | minted : Minter → KeySource

/-- Modelled from the spec: Minter Resolution — turns a key source into the
optional internal key sequence, enforcing count, hashability and
uniqueness. -/
def resolveKeySource (rows : List Row) (src : KeySource) :
    Except Err (Option (List Val)) :=
  match src with
  | KeySource.noKeys => Except.ok none
  | KeySource.explicitKeys ks =>
      match checkKeys ks rows.length with
      | some e => Except.error e
      | none => Except.ok (some ks)
  | KeySource.minted mn =>
      match (rows.map mn.apply).allSome with
      | none => Except.error Err.lookupFailure
      | some ks =>
          match checkKeys ks rows.length with
          | some e => Except.error e
          | none => Except.ok (some ks)

/-- Homogeneity check: every row carries the first row's type tag. -/
def homogeneousType (rows : List Row) : Bool :=
  match rows with
  | [] => true
  | r :: rest => rest.all (fun s => s.dtype = r.dtype)

/-- Length check: every row has the first row's length. -/
def homogeneousLen (rows : List Row) : Bool :=
  match rows with
  | [] => true
  | r :: rest => rest.all (fun s => s.len = r.len)

/-- Modelled from the spec: construction of a container from rows, a key
source and optional metadata, with all structural validation. -/
def construct (cls : String) (rows : List Row) (src : KeySource)
    (md : Option (List (String × Val))) : Except Err TabularMSA :=
  if ¬ homogeneousType rows then Except.error Err.typeMismatch
  else if ¬ homogeneousLen rows then Except.error Err.lengthMismatch
  else
    match resolveKeySource rows src with
    | Except.error e => Except.error e
    | Except.ok ks => Except.ok ⟨cls, rows, ks, md⟩

/-- Modelled from the spec: `from_dict` builds a container whose keys are
the mapping's keys and whose rows are the corresponding values.  The
mapping is modelled as an association list (its iteration order). -/
def fromDict (cls : String) (d : List (Val × Row)) : Except Err TabularMSA :=
  construct cls (d.map Prod.snd) (KeySource.explicitKeys (d.map Prod.fst)) none

/-- Modelled from the spec: `to_dict` fails when the container has no keys
and otherwise returns the mapping from each key to the very row object
stored at its position. -/
def TabularMSA.toDict (m : TabularMSA) : Except Err (List (Val × Row)) :=
  match m.keys with
  | none => Except.error Err.operationError
  | some ks => Except.ok (ks.zip m.seqs)

/-- Normalized metadata: absent metadata is equivalent to an empty
mapping. -/
def normMeta (md : Option (List (String × Val))) : List (String × Val) :=
  md.getD []

/-- Modelled from the spec: container equality — same element-type tag (or
both empty-typed), identical shape, identical rows in order, identical
presence and value of keys, and equivalent metadata (absent equals empty).
The concrete class `cls` plays no role. -/
def msaEq (a b : TabularMSA) : Bool :=
  decide (a.dtypeTag = b.dtypeTag) &&
  decide ((a.rowCount, a.posCount) = (b.rowCount, b.posCount)) &&
  decide (a.seqs = b.seqs) &&
  decide (a.keys = b.keys) &&
  decide (normMeta a.metadata = normMeta b.metadata)

/-- Modelled from the spec: atomic `append`.  All validation (mutual
exclusivity of `key`/`minter`, type and length homogeneity against the
existing shape, the four-way key-state rule, hashability and uniqueness of
the resolved key) precedes any mutation; on failure the pair carries the
error together with the untouched container. -/
def TabularMSA.append (m : TabularMSA) (r : Row) (k : Option Val)
    (mn : Option Minter) : Option Err × TabularMSA :=
  if k.isSome ∧ mn.isSome then (some Err.configConflict, m)
  else if ¬ (m.seqs.all (fun s => r.dtype = s.dtype) = true) then
    (some Err.typeMismatch, m)
  else if ¬ (m.seqs.all (fun s => r.len = s.len) = true) then
    (some Err.lengthMismatch, m)
  else
    match m.keys, k, mn with
    | none, none, none => (none, { m with seqs := m.seqs ++ [r] })
    | none, some _, _ => (some Err.operationError, m)
    | none, none, some _ => (some Err.operationError, m)
    | some _, none, none => (some Err.operationError, m)
    | some ks, some key, none =>
        if ¬ key.hashable then (some Err.unhashableKey, m)
        else if key ∈ ks then (some Err.duplicateKey, m)
        else (none, { m with seqs := m.seqs ++ [r], keys := some (ks ++ [key]) })
    | some ks, none, some mint =>
        match mint.apply r with
        | none => (some Err.lookupFailure, m)
        | some key =>
            if ¬ key.hashable then (some Err.unhashableKey, m)
            else if key ∈ ks then (some Err.duplicateKey, m)
            else (none, { m with seqs := m.seqs ++ [r],
                                 keys := some (ks ++ [key]) })
    | some _, some _, some _ => (some Err.configConflict, m)

/-- Modelled from the spec: atomic `reindex` — key resolution of
construction applied to the current rows; with both arguments a
configuration conflict; with neither, removes the Key Index. -/
def TabularMSA.reindex (m : TabularMSA) (ks : Option (List Val))
    (mn : Option Minter) : Option Err × TabularMSA :=
  match ks, mn with
  | some _, some _ => (some Err.configConflict, m)
  | none, none => (none, { m with keys := none })
  | some keyList, none =>
      match checkKeys keyList m.seqs.length with
      | some e => (some e, m)
      | none => (none, { m with keys := some keyList })
  | none, some mint =>
      match (m.seqs.map mint.apply).allSome with
      | none => (some Err.lookupFailure, m)
      | some keyList =>
          match checkKeys keyList m.seqs.length with
          | some e => (some e, m)
          | none => (none, { m with keys := some keyList })

/-- Modelled from the spec: the `keys` property setter, which replaces the
Key Index wholesale with the validation of `reindex`. -/
def TabularMSA.keysWrite (m : TabularMSA) (ks : List Val) :
    Option Err × TabularMSA :=
  m.reindex (some ks) none

/-- The order used by the stable sort: lexicographic on the total value
comparison, tie-broken by original row index.  Sorting by this order is
exactly "stable sort ascending by value". -/
def LexR (p q : Nat × Val) : Prop :=
  valCompare p.2 q.2 = Ordering.lt ∨ (p.2 = q.2 ∧ p.1 ≤ q.1)

instance : DecidableRel LexR := fun p q =>
  inferInstanceAs (Decidable (valCompare p.2 q.2 = Ordering.lt ∨
    (p.2 = q.2 ∧ p.1 ≤ q.1)))

/-- Decoration of the resolved sort values with their row indices. -/
def dec (vals : List Val) : List (Nat × Val) :=
  (List.range vals.length).map (fun i => (i, vals.getD i Val.dict))

/-- The permutation of row indices produced by the stable ascending sort of
the resolved values. -/
def sortPerm (vals : List Val) : List Nat :=
  (List.insertionSort LexR (dec vals)).map Prod.fst

/-- Rearranges a list according to a list of indices. -/
def applyPerm {α : Type} (xs : List α) (p : List Nat) : List α :=
  p.filterMap xs.get?

/-- Modelled from the spec: every pair of resolved sort values must be
comparable (a total order over the resolved values); otherwise the sort
fails with a type error. -/
def allCmpB : List Val → Bool
  | [] => true
  | v :: rest => rest.all (fun w => (cmpVal v w).isSome) && allCmpB rest

/-- Modelled from the spec: the `key` argument of `sort` — absent (sort by
the container's own Key Index), a metadata-field name, or a row-to-value
function. -/
inductive SortKey where
  | byIndex
  | byField : String → SortKey
  | byFun : (Row → Val) → SortKey

/-- Modelled from the spec: resolution of the sort values.  With no key
argument the container's own keys are used (operation error when absent);
a field name resolves each row's metadata field (lookup error when any row
lacks it); a function is applied to every row. -/
def TabularMSA.resolveSortVals (m : TabularMSA) (sk : SortKey) :
    Except Err (List Val) :=
  match sk with
  | SortKey.byIndex =>
      match m.keys with
      | none => Except.error Err.operationError
      | some ks => Except.ok ks
  | SortKey.byField name =>
      match (m.seqs.map (fun r => r.field name)).allSome with
      | none => Except.error Err.lookupFailure
      | some vals => Except.ok vals
  | SortKey.byFun f => Except.ok (m.seqs.map f)

/-- Modelled from the spec: the Sort Engine.  Sort values are resolved
eagerly; if any pair of them is unorderable the call fails with a type
error and the container is untouched; otherwise rows (and keys, when
present) are rearranged by the stable ascending order, and `reverse=True`
reverses the whole arrangement afterwards. -/
def TabularMSA.sort (m : TabularMSA) (sk : SortKey) (rev : Bool) :
    Option Err × TabularMSA :=
  match m.resolveSortVals sk with
  | Except.error e => (some e, m)
  | Except.ok vals =>
      if allCmpB vals then
        let p0 := sortPerm vals
        let p := if rev then p0.reverse else p0
        (none, { m with seqs := applyPerm m.seqs p,
                        keys := m.keys.map (fun ks => applyPerm ks p) })
      else (some Err.unorderable, m)

/-- A DNA-like row: element type tag `"DNA"`, gap characters `-` and `.`. -/
def mkDNA (s : String) (md : List (String × Val)) : Row :=
  ⟨"DNA", s.toList, ['-', '.'], md⟩

/-- The container of the concrete gap-frequency scenario: rows `"AA."` and
`"-A-"`. -/
def exGapMsa : TabularMSA :=
  ⟨"TabularMSA", [mkDNA "AA." [], mkDNA "-A-" []], none, none⟩

/-- A container with one row of zero positions. -/
def exNoPosMsa : TabularMSA := ⟨"TabularMSA", [mkDNA "" []], none, none⟩

/-- A container with a single row that has no metadata fields. -/
def exOneRowMsa : TabularMSA := ⟨"TabularMSA", [mkDNA "AAA" []], none, none⟩

/-- A container with a single row carrying an `id` metadata field. -/
def exOneRowIdMsa : TabularMSA :=
  ⟨"TabularMSA", [mkDNA "ACG" [("id", Val.num 42)]], none, none⟩

/-- A keyed container with two rows of zero positions. -/
def exKeysMsa : TabularMSA :=
  ⟨"TabularMSA", [mkDNA "" [], mkDNA "" []],
   some [Val.str "a", Val.str "b"], none⟩

/-- A keyed container whose keys are in descending order. -/
def exSortMsa : TabularMSA :=
  ⟨"TabularMSA", [mkDNA "T" [], mkDNA "G" [], mkDNA "A" []],
   some [Val.num 3, Val.num 2, Val.num 1], none⟩

/-- A keyed container whose stored keys are mutually unorderable (an int, a
string and `None`). -/
def exUnordKeysMsa : TabularMSA :=
  ⟨"TabularMSA", [mkDNA "TCC" [], mkDNA "TCG" [], mkDNA "TCA" []],
   some [Val.num 1, Val.str "abc", Val.noneV], none⟩

/-- An association list with mixed key types (a string key and an integer
key). -/
def exMixedDict : List (Val × Row) :=
  [(Val.str "a", mkDNA "CAT" []), (Val.num 42, mkDNA "TAG" [])]

/-- The container with no rows at all. -/
def exEmptyMsa : TabularMSA := ⟨"TabularMSA", [], none, none⟩

/-! ### Helper lemmas -/

theorem cmp3_eq_lt_iff {α : Type} [LinearOrder α] (a b : α) :
    cmp3 a b = Ordering.lt ↔ a < b := by
  unfold cmp3
  split_ifs with h1 h2 <;> simp_all

theorem cmp3_eq_gt_iff {α : Type} [LinearOrder α] (a b : α) :
    cmp3 a b = Ordering.gt ↔ b < a := by
  unfold cmp3
  split_ifs with h1 h2 <;> simp_all
  exact le_of_lt h1

theorem cmp3_eq_eq_iff {α : Type} [LinearOrder α] (a b : α) :
    cmp3 a b = Ordering.eq ↔ a = b := by
  unfold cmp3
  split_ifs with h1 h2 <;> simp_all
  · exact ne_of_lt h1
  · exact (ne_of_lt h2).symm
  · exact le_antisymm h2 h1

theorem valCompare_eq_eq_iff (v w : Val) :
    valCompare v w = Ordering.eq ↔ v = w := by
  cases v <;> cases w <;>
    simp_all [valCompare, Val.rank, cmp3_eq_eq_iff]

theorem valCompare_gt_iff (v w : Val) :
    valCompare v w = Ordering.gt ↔ valCompare w v = Ordering.lt := by
  cases v <;> cases w <;>
    simp_all [valCompare, Val.rank, cmp3_eq_gt_iff, cmp3_eq_lt_iff]

theorem valCompare_lt_trans {u v w : Val}
    (h1 : valCompare u v = Ordering.lt) (h2 : valCompare v w = Ordering.lt) :
    valCompare u w = Ordering.lt := by
  cases u <;> cases v <;> cases w <;>
    simp_all [valCompare, Val.rank, cmp3_eq_lt_iff] <;>
    exact lt_trans h1 h2

theorem cmpVal_agree {v w : Val} {o : Ordering} (h : cmpVal v w = some o) :
    valCompare v w = o := by
  cases v <;> cases w <;> simp_all [cmpVal, valCompare]

instance : IsTotal (Nat × Val) LexR := by
  constructor
  intro p q
  rcases ho : valCompare p.2 q.2 with _ | _ | _
  · exact Or.inl (Or.inl ho)
  · rcases Nat.le_total p.1 q.1 with h | h
    · exact Or.inl (Or.inr ⟨(valCompare_eq_eq_iff _ _).mp ho, h⟩)
    · exact Or.inr (Or.inr ⟨((valCompare_eq_eq_iff _ _).mp ho).symm, h⟩)
  · exact Or.inr (Or.inl ((valCompare_gt_iff _ _).mp ho))

instance : IsTrans (Nat × Val) LexR := by
  constructor
  intro p q r hpq hqr
  rcases hpq with h1 | ⟨he1, hi1⟩
  · rcases hqr with h2 | ⟨he2, hi2⟩
    · exact Or.inl (valCompare_lt_trans h1 h2)
    · exact Or.inl (he2 ▸ h1)
  · rcases hqr with h2 | ⟨he2, hi2⟩
    · exact Or.inl (he1 ▸ h2)
    · exact Or.inr ⟨he1.trans he2, le_trans hi1 hi2⟩

theorem dec_map_fst (vals : List Val) :
    (dec vals).map Prod.fst = List.range vals.length := by
  unfold dec
  rw [List.map_map]
  exact List.map_id _

theorem mem_dec {vals : List Val} {x : Nat × Val} (hx : x ∈ dec vals) :
    x.1 < vals.length ∧ x.2 = vals.getD x.1 Val.dict := by
  unfold dec at hx
  rcases List.mem_map.mp hx with ⟨i, hi, rfl⟩
  exact ⟨List.mem_range.mp hi, rfl⟩

theorem sortPerm_perm_range (vals : List Val) :
    (sortPerm vals).Perm (List.range vals.length) := by
  unfold sortPerm
  exact ((List.perm_insertionSort LexR (dec vals)).map Prod.fst).trans
    (by rw [dec_map_fst])

/-- The sort permutation is, pairwise, ascending in the resolved values and,
on ties, ascending in the original row index: stability. -/
theorem sortPerm_pairwise (vals : List Val) :
    (sortPerm vals).Pairwise (fun a b =>
      ∀ o, cmpVal (vals.getD a Val.dict) (vals.getD b Val.dict) = some o →
        o ≠ Ordering.gt ∧ (o = Ordering.eq → a < b)) := by
  have hsorted : (List.insertionSort LexR (dec vals)).Pairwise LexR :=
    List.sorted_insertionSort LexR (dec vals)
  have hnd : ((List.insertionSort LexR (dec vals)).map Prod.fst).Nodup := by
    have hperm : ((List.insertionSort LexR (dec vals)).map Prod.fst).Perm
        (List.range vals.length) := sortPerm_perm_range vals
    exact hperm.nodup_iff.mpr (List.nodup_range _)
  have hne : (List.insertionSort LexR (dec vals)).Pairwise
      (fun x y => x.1 ≠ y.1) := List.pairwise_map.mp hnd
  have hboth := hsorted.and hne
  rw [sortPerm, List.pairwise_map]
  refine hboth.imp_of_mem ?_
  intro x y hx hy hxy
  have hx2 := mem_dec ((List.mem_insertionSort LexR).mp hx)
  have hy2 := mem_dec ((List.mem_insertionSort LexR).mp hy)
  intro o ho
  rw [← hx2.2, ← hy2.2] at ho
  have hvc := cmpVal_agree ho
  rcases hxy.1 with hlt | ⟨heq, hle⟩
  · have : o = Ordering.lt := by rw [← hvc, hlt]
    subst this
    simp
  · have : o = Ordering.eq := by
      rw [← hvc]
      exact (valCompare_eq_eq_iff _ _).mpr heq
    subst this
    exact ⟨by simp, fun _ => lt_of_le_of_ne hle hxy.2⟩

theorem applyPerm_reverse {α : Type} (xs : List α) (p : List Nat) :
    applyPerm xs p.reverse = (applyPerm xs p).reverse := by
  unfold applyPerm
  exact List.filterMap_reverse _ _

/-! ### Claim theorems -/

/-- C9: for every container, `len()` equals the row count while truthiness
is `row_count > 0 AND position_count > 0`; a container holding only
zero-length rows is falsy even though its `len()` is nonzero. -/
theorem c9_len_and_truthiness (m : TabularMSA) :
    m.msaLen = m.seqs.length ∧
    (m.msaBool = true ↔ 0 < m.rowCount ∧ 0 < m.posCount) ∧
    (m.seqs ≠ [] → (∀ r ∈ m.seqs, r.len = 0) →
      m.msaBool = false ∧ m.msaLen ≠ 0) := by
  refine ⟨rfl, ?_, ?_⟩
  · simp [TabularMSA.msaBool]
  · intro hne hzero
    constructor
    · rcases hs : m.seqs with _ | ⟨r, rest⟩
      · exact absurd hs hne
      · have hr : r.len = 0 := hzero r (by rw [hs]; exact List.mem_cons_self r rest)
        simp [TabularMSA.msaBool, TabularMSA.posCount, hs, hr]
    · simpa [TabularMSA.msaLen, List.length_eq_zero] using hne

theorem c9_witness :
    exNoPosMsa.msaBool = false ∧ exNoPosMsa.msaLen ≠ 0 :=
  (c9_len_and_truthiness exNoPosMsa).2.2 (by decide) (by decide)

/-- C1 counterexample: for the rows `"AA."` and `"-A-"`,
`gap_frequencies(axis="position")` yields the per-row counts `[1, 2]`, not
the per-column counts `[1, 0, 2]` that the claim asserts. -/
theorem c1_counterexample :
    exGapMsa.gapFrequencies Axis.position ≠ [1, 0, 2] ∧
    exGapMsa.gapFrequencies Axis.position = [1, 2] := by decide

/-- C1 amended: the axis names the collapsed axis — `axis="sequence"`
yields one count per column (the number of rows whose character at that
column is a gap), `axis="position"` yields one count per row; in
particular, for the rows `"AA."` and `"-A-"`, the per-column result
`[1, 0, 2]` is obtained with `axis="sequence"`. -/
theorem c1_amended (m : TabularMSA) :
    (m.gapFrequencies Axis.sequence).length = m.posCount ∧
    (∀ c, c < m.posCount →
      (m.gapFrequencies Axis.sequence).getD c 0 =
        (m.seqs.filter (fun r => r.isGapAt c)).length) ∧
    m.gapFrequencies Axis.position = m.seqs.map Row.gapCount ∧
    exGapMsa.gapFrequencies Axis.sequence = [1, 0, 2] := by
  refine ⟨by simp [TabularMSA.gapFrequencies], ?_, rfl, by decide⟩
  intro c hc
  simp [TabularMSA.gapFrequencies, TabularMSA.colGapCount,
    List.getD_eq_getElem?_getD, List.getElem?_map, List.getElem?_range hc]

theorem c1_witness :
    2 < exGapMsa.posCount ∧
    (exGapMsa.gapFrequencies Axis.sequence).getD 2 0 =
      (exGapMsa.seqs.filter (fun r => r.isGapAt 2)).length :=
  ⟨by decide, (c1_amended exGapMsa).2.1 2 (by decide)⟩

/-- C2 counterexample: a container with one row and zero positions has a
nonempty position-axis result (`[0]` absolutely, `[NaN]` relatively), and
the NaN sentinel appears there although the row count is nonzero —
refuting both the zero-length clause and the claimed NaN condition. -/
theorem c2_counterexample :
    exNoPosMsa.posCount = 0 ∧
    exNoPosMsa.gapFrequencies Axis.position ≠ [] ∧
    none ∈ exNoPosMsa.gapFrequenciesRel Axis.position ∧
    exNoPosMsa.rowCount ≠ 0 := by decide

/-- C2 amended: zero positions yield a zero-length sequence-axis result
irrespective of mode; zero rows yield a zero-length position-axis result;
and in relative mode the NaN sentinel appears exactly when the number of
rows is nonzero and the number of positions is zero (every row's relative
frequency is NaN, on the position axis) — never for any other shape. -/
theorem c2_amended (m : TabularMSA) :
    (m.posCount = 0 → m.gapFrequencies Axis.sequence = [] ∧
      m.gapFrequenciesRel Axis.sequence = []) ∧
    (m.rowCount = 0 → m.gapFrequencies Axis.position = [] ∧
      m.gapFrequenciesRel Axis.position = []) ∧
    (∀ ax, none ∈ m.gapFrequenciesRel ax ↔
      (ax = Axis.position ∧ m.rowCount ≠ 0 ∧ m.posCount = 0)) := by
  refine ⟨?_, ?_, ?_⟩
  · intro h
    simp [TabularMSA.gapFrequencies, TabularMSA.gapFrequenciesRel, h]
  · intro h
    have hs : m.seqs = [] := List.length_eq_zero.mp h
    simp [TabularMSA.gapFrequencies, TabularMSA.gapFrequenciesRel, hs]
  · intro ax
    cases ax
    · simp only [TabularMSA.gapFrequenciesRel, List.mem_map]
      constructor
      · rintro ⟨n, hn, hnone⟩
        by_cases h0 : m.rowCount = 0
        · have hs : m.seqs = [] := List.length_eq_zero.mp h0
          simp [TabularMSA.gapFrequencies, TabularMSA.posCount, hs] at hn
        · simp [h0] at hnone
      · rintro ⟨h, _⟩
        cases h
    · simp only [TabularMSA.gapFrequenciesRel, List.mem_map]
      constructor
      · rintro ⟨n, hn, hnone⟩
        by_cases h0 : m.posCount = 0
        · refine ⟨trivial, ?_, h0⟩
          intro hrc
          have hs : m.seqs = [] := List.length_eq_zero.mp hrc
          simp [TabularMSA.gapFrequencies, hs] at hn
        · simp [h0] at hnone
      · rintro ⟨-, hrc, hpc⟩
        rcases hs : m.seqs with _ | ⟨r, rest⟩
        · exact absurd (by simp [TabularMSA.rowCount, hs]) hrc
        · exact ⟨r.gapCount, by simp [TabularMSA.gapFrequencies, hs], by
            simp [hpc]⟩

theorem c2_witness :
    exEmptyMsa.gapFrequencies Axis.position = [] ∧
    exEmptyMsa.gapFrequenciesRel Axis.position = [] :=
  (c2_amended exEmptyMsa).2.1 (by decide)

/-- C8: two containers are equal iff they agree on element-type tag (both
unset for empty containers), shape, rows in order, key presence and values
in order, and normalized metadata (absent equals empty); the concrete
class plays no role, and keys compare by their resolved values no matter
whether they came from an explicit sequence or a minter. -/
theorem c8_equality (a b : TabularMSA) :
    (msaEq a b = true ↔
      a.dtypeTag = b.dtypeTag ∧
      (a.rowCount, a.posCount) = (b.rowCount, b.posCount) ∧
      a.seqs = b.seqs ∧ a.keys = b.keys ∧
      normMeta a.metadata = normMeta b.metadata) ∧
    (∀ cls1 cls2 seqs keys md1 md2, normMeta md1 = normMeta md2 →
      msaEq ⟨cls1, seqs, keys, md1⟩ ⟨cls2, seqs, keys, md2⟩ = true) ∧
    (∀ cls1 cls2 rows mn ks md,
      homogeneousType rows = true → homogeneousLen rows = true →
      resolveKeySource rows (KeySource.minted mn) =
        Except.ok (some ks) →
      construct cls1 rows (KeySource.minted mn) md =
        Except.ok ⟨cls1, rows, some ks, md⟩ ∧
      construct cls2 rows (KeySource.explicitKeys ks) md =
        Except.ok ⟨cls2, rows, some ks, md⟩ ∧
      msaEq ⟨cls1, rows, some ks, md⟩ ⟨cls2, rows, some ks, md⟩ = true) := by
  refine ⟨?_, ?_, ?_⟩
  · simp only [msaEq, Bool.and_eq_true, decide_eq_true_eq, Prod.mk.injEq]
    tauto
  · intro cls1 cls2 seqs keys md1 md2 hmd
    simp [msaEq, TabularMSA.dtypeTag, TabularMSA.rowCount, TabularMSA.posCount,
      hmd]
  · intro cls1 cls2 rows mn ks md ht hl hres
    have hck : checkKeys ks rows.length = none := by
      simp only [resolveKeySource] at hres
      rcases hall : (rows.map mn.apply).allSome with _ | ks2
      · simp [hall] at hres
      · simp only [hall] at hres
        rcases hch : checkKeys ks2 rows.length with _ | e
        · simp only [hch] at hres
          obtain rfl : ks2 = ks := by simpa using hres
          exact hch
        · simp [hch] at hres
    refine ⟨?_, ?_, ?_⟩
    · simp [construct, ht, hl, hres]
    · simp [construct, ht, hl, resolveKeySource, hck]
    · simp [msaEq, TabularMSA.dtypeTag, TabularMSA.rowCount,
        TabularMSA.posCount]

theorem c8_witness :
    construct "TabularMSA" [mkDNA "ACGT" [("id", Val.str "a")]]
        (KeySource.minted (Minter.byField "id")) none =
      Except.ok ⟨"TabularMSA", [mkDNA "ACGT" [("id", Val.str "a")]],
        some [Val.str "a"], none⟩ ∧
    construct "TabularMSASubclass" [mkDNA "ACGT" [("id", Val.str "a")]]
        (KeySource.explicitKeys [Val.str "a"]) none =
      Except.ok ⟨"TabularMSASubclass", [mkDNA "ACGT" [("id", Val.str "a")]],
        some [Val.str "a"], none⟩ ∧
    msaEq ⟨"TabularMSA", [mkDNA "ACGT" [("id", Val.str "a")]],
        some [Val.str "a"], none⟩
      ⟨"TabularMSASubclass", [mkDNA "ACGT" [("id", Val.str "a")]],
        some [Val.str "a"], none⟩ = true :=
  (c8_equality exEmptyMsa exEmptyMsa).2.2 "TabularMSA" "TabularMSASubclass"
    [mkDNA "ACGT" [("id", Val.str "a")]] (Minter.byField "id")
    [Val.str "a"] none (by decide) (by decide) rfl

/-- C7: for every association list whose rows share one element type and
one length and whose keys are hashable and distinct, `from_dict` succeeds
and `to_dict` returns exactly the original associations, the stored rows
being the very row values of the input (no copy); this includes the empty
mapping and mappings mixing key types. -/
theorem c7_dict_roundtrip (cls : String) (d : List (Val × Row))
    (ht : homogeneousType (d.map Prod.snd) = true)
    (hl : homogeneousLen (d.map Prod.snd) = true)
    (hh : (d.map Prod.fst).all Val.hashable = true)
    (hnd : nodupB (d.map Prod.fst) = true) :
    fromDict cls d =
      Except.ok ⟨cls, d.map Prod.snd, some (d.map Prod.fst), none⟩ ∧
    TabularMSA.toDict ⟨cls, d.map Prod.snd, some (d.map Prod.fst), none⟩ =
      Except.ok d := by
  constructor
  · have hck : checkKeys (d.map Prod.fst) d.length = none := by
      unfold checkKeys
      simp [hh, hnd]
    simp [fromDict, construct, ht, hl, resolveKeySource, hck]
  · simp only [TabularMSA.toDict]
    rw [(List.zip_of_prod rfl rfl).symm]

/-- C4: `append`'s four-way key rule.  With no Key Index: a supplied key is
an operation error, a supplied minter is an operation error, and neither
appends the row keylessly.  With a Key Index: neither key nor minter is an
operation error, while exactly one of them appends the row and extends the
keys by the single resolved key, which must be hashable and unique against
the existing keys. -/
theorem c4_append_key_rules (m : TabularMSA) (r : Row)
    (ht : m.seqs.all (fun s => r.dtype = s.dtype) = true)
    (hl : m.seqs.all (fun s => r.len = s.len) = true) :
    (m.keys = none →
      (∀ k, m.append r (some k) none = (some Err.operationError, m)) ∧
      (∀ mn, m.append r none (some mn) = (some Err.operationError, m)) ∧
      m.append r none none = (none, { m with seqs := m.seqs ++ [r] })) ∧
    (∀ ks, m.keys = some ks →
      (m.append r none none = (some Err.operationError, m)) ∧
      (∀ k, k.hashable = true → k ∉ ks →
        m.append r (some k) none =
          (none, { m with seqs := m.seqs ++ [r], keys := some (ks ++ [k]) })) ∧
      (∀ k, k.hashable = false →
        m.append r (some k) none = (some Err.unhashableKey, m)) ∧
      (∀ k, k ∈ ks → k.hashable = true →
        m.append r (some k) none = (some Err.duplicateKey, m)) ∧
      (∀ mn k, mn.apply r = some k → k.hashable = true → k ∉ ks →
        m.append r none (some mn) =
          (none, { m with seqs := m.seqs ++ [r],
                          keys := some (ks ++ [k]) }))) := by
  constructor
  · intro hnone
    refine ⟨?_, ?_, ?_⟩ <;>
      simp [TabularMSA.append, ht, hl, hnone]
  · intro ks hks
    refine ⟨?_, ?_, ?_, ?_, ?_⟩
    · simp [TabularMSA.append, ht, hl, hks]
    · intro k hhash hmem
      simp [TabularMSA.append, ht, hl, hks, hhash, hmem]
    · intro k hhash
      simp [TabularMSA.append, ht, hl, hks, hhash]
    · intro k hmem hhash
      simp [TabularMSA.append, ht, hl, hks, hhash, hmem]
    · intro mn k hap hhash hmem
      simp [TabularMSA.append, ht, hl, hks, hap, hhash, hmem]

theorem c4_witness :
    exKeysMsa.append (mkDNA "" []) (some (Val.str "c")) none =
      (none,
        { exKeysMsa with
            seqs := exKeysMsa.seqs ++ [mkDNA "" []]
            keys := some [Val.str "a", Val.str "b", Val.str "c"] }) :=
  ((c4_append_key_rules exKeysMsa (mkDNA "" []) (by decide) (by decide)).2
    [Val.str "a", Val.str "b"] rfl).2.1 (Val.str "c") (by decide) (by decide)

/-- C5: every mutating operation (`append`, keys assignment, `reindex`,
`sort`) is atomic with respect to failure: whenever a call reports an
error, the container it returns is exactly the container it was given —
rows, keys, metadata and shape untouched. -/
theorem c5_atomic_on_failure (m : TabularMSA) :
    (∀ r k mn e, (m.append r k mn).1 = some e → (m.append r k mn).2 = m) ∧
    (∀ ks mn e, (m.reindex ks mn).1 = some e → (m.reindex ks mn).2 = m) ∧
    (∀ ks e, (m.keysWrite ks).1 = some e → (m.keysWrite ks).2 = m) ∧
    (∀ sk rev e, (m.sort sk rev).1 = some e → (m.sort sk rev).2 = m) := by
  have hre2 : ∀ ks mn, (m.reindex ks mn).2 = m ∨ (m.reindex ks mn).1 = none := by
    intro ks mn
    unfold TabularMSA.reindex
    rcases ks with _ | keyList <;> rcases mn with _ | mint
    · right; rfl
    · dsimp only
      rcases (m.seqs.map mint.apply).allSome with _ | keyList2
      · left; rfl
      · dsimp only
        rcases checkKeys keyList2 m.seqs.length with _ | e2
        · right; rfl
        · left; rfl
    · dsimp only
      rcases checkKeys keyList m.seqs.length with _ | e2
      · right; rfl
      · left; rfl
    · left; rfl
  have happ2 : ∀ r k mn, (m.append r k mn).2 = m ∨ (m.append r k mn).1 = none := by
    intro r k mn
    unfold TabularMSA.append
    split_ifs
    all_goals try (left; rfl)
    rcases m.keys with _ | ks <;> rcases k with _ | key <;>
      rcases mn with _ | mint
    all_goals try (right; rfl)
    all_goals try (left; rfl)
    · dsimp only
      rcases mint.apply r with _ | key2
      · left; rfl
      · dsimp only
        split_ifs
        all_goals try (left; rfl)
        right; rfl
    · dsimp only
      split_ifs
      all_goals try (left; rfl)
      right; rfl
  have hso2 : ∀ sk rev, (m.sort sk rev).2 = m ∨ (m.sort sk rev).1 = none := by
    intro sk rev
    unfold TabularMSA.sort
    rcases m.resolveSortVals sk with e2 | vals
    · left; rfl
    · dsimp only
      split_ifs
      all_goals try (right; rfl)
      all_goals left; rfl
  have finish : ∀ (p : Option Err × TabularMSA) (e : Err),
      (p.2 = m ∨ p.1 = none) → p.1 = some e → p.2 = m := by
    rintro p e (h2 | h2) h
    · exact h2
    · rw [h2] at h; cases h
  refine ⟨?_, ?_, ?_, ?_⟩
  · intro r k mn e h
    exact finish _ e (happ2 r k mn) h
  · intro ks mn e h
    exact finish _ e (hre2 ks mn) h
  · intro ks e h
    exact finish _ e (hre2 (some ks) none) h
  · intro sk rev e h
    exact finish _ e (hso2 sk rev) h

/-- C6: the sort is stable — the permutation it applies is, pairwise,
never descending in the resolved sort values and, on equal values, keeps
the original row order — and `reverse=True` produces exactly the stable
ascending arrangement reversed as a whole, for rows and keys alike. -/
theorem c6_sort_stable_and_reverse (m : TabularMSA) (sk : SortKey)
    (vals : List Val) (hres : m.resolveSortVals sk = Except.ok vals)
    (hcmp : allCmpB vals = true) (hn : vals.length = m.seqs.length) :
    (m.sort sk false).1 = none ∧
    (m.sort sk false).2.seqs = applyPerm m.seqs (sortPerm vals) ∧
    (m.sort sk false).2.keys =
      m.keys.map (fun ks => applyPerm ks (sortPerm vals)) ∧
    (sortPerm vals).Perm (List.range m.seqs.length) ∧
    (sortPerm vals).Pairwise (fun a b =>
      ∀ o, cmpVal (vals.getD a Val.dict) (vals.getD b Val.dict) = some o →
        o ≠ Ordering.gt ∧ (o = Ordering.eq → a < b)) ∧
    (m.sort sk true).1 = none ∧
    (m.sort sk true).2.seqs = ((m.sort sk false).2.seqs).reverse ∧
    (m.sort sk true).2.keys = ((m.sort sk false).2.keys).map List.reverse := by
  have hs0 : m.sort sk false =
      (none, { m with seqs := applyPerm m.seqs (sortPerm vals),
                      keys := m.keys.map (fun ks => applyPerm ks (sortPerm vals)) }) := by
    unfold TabularMSA.sort
    rw [hres]
    dsimp only
    rw [if_pos hcmp]
    rfl
  have hs1 : m.sort sk true =
      (none, { m with seqs := applyPerm m.seqs (sortPerm vals).reverse,
                      keys := m.keys.map
                        (fun ks => applyPerm ks (sortPerm vals).reverse) }) := by
    unfold TabularMSA.sort
    rw [hres]
    dsimp only
    rw [if_pos hcmp]
    rfl
  refine ⟨by rw [hs0], by rw [hs0], by rw [hs0], hn ▸ sortPerm_perm_range vals,
    sortPerm_pairwise vals, by rw [hs1], ?_, ?_⟩
  · rw [hs0, hs1]
    exact applyPerm_reverse m.seqs (sortPerm vals)
  · rw [hs0, hs1]
    cases m.keys <;> simp [applyPerm_reverse]

theorem c6_witness :
    (exSortMsa.sort SortKey.byIndex false).1 = none ∧
    (exSortMsa.sort SortKey.byIndex true).2.seqs =
      ((exSortMsa.sort SortKey.byIndex false).2.seqs).reverse :=
  ⟨(c6_sort_stable_and_reverse exSortMsa SortKey.byIndex
      [Val.num 3, Val.num 2, Val.num 1] rfl (by decide) (by decide)).1,
   (c6_sort_stable_and_reverse exSortMsa SortKey.byIndex
      [Val.num 3, Val.num 2, Val.num 1] rfl (by decide) (by decide)).2.2.2.2.2.2.1⟩

/-- C10: sorting with an explicit key (field name or callable) never
compares the container's own stored keys: the error status is independent
of the stored keys (in particular of their orderability), and on success
the stored keys are permuted alongside their rows by the permutation
determined by the resolved sort values alone. -/
theorem c10_sort_ignores_stored_keys (cls : String) (seqs : List Row)
    (ks : List Val) (md : Option (List (String × Val))) (sk : SortKey)
    (rev : Bool) (hsk : sk ≠ SortKey.byIndex) :
    (∀ ks2, (TabularMSA.sort ⟨cls, seqs, some ks, md⟩ sk rev).1 =
      (TabularMSA.sort ⟨cls, seqs, some ks2, md⟩ sk rev).1) ∧
    (∀ vals,
      TabularMSA.resolveSortVals ⟨cls, seqs, some ks, md⟩ sk =
        Except.ok vals →
      allCmpB vals = true →
      (TabularMSA.sort ⟨cls, seqs, some ks, md⟩ sk rev).1 = none ∧
      (TabularMSA.sort ⟨cls, seqs, some ks, md⟩ sk rev).2.seqs =
        applyPerm seqs
          (if rev then (sortPerm vals).reverse else sortPerm vals) ∧
      (TabularMSA.sort ⟨cls, seqs, some ks, md⟩ sk rev).2.keys =
        some (applyPerm ks
          (if rev then (sortPerm vals).reverse else sortPerm vals))) := by
  have hresEq : ∀ ks2 : List Val,
      TabularMSA.resolveSortVals ⟨cls, seqs, some ks2, md⟩ sk =
        TabularMSA.resolveSortVals ⟨cls, seqs, some ks, md⟩ sk := by
    intro ks2
    rcases sk with _ | name | f
    · exact absurd rfl hsk
    · rfl
    · rfl
  constructor
  · intro ks2
    unfold TabularMSA.sort
    rw [hresEq ks2]
    rcases TabularMSA.resolveSortVals ⟨cls, seqs, some ks, md⟩ sk with e | vals
    · rfl
    · dsimp only
      split_ifs <;> rfl
  · intro vals hres hcmp
    unfold TabularMSA.sort
    rw [hres]
    dsimp only
    rw [if_pos hcmp]
    exact ⟨rfl, rfl, rfl⟩

theorem c10_witness :
    (exUnordKeysMsa.sort
        (SortKey.byFun (fun r => Val.str (String.mk r.chars))) false).1 =
      none ∧
    (exUnordKeysMsa.sort
        (SortKey.byFun (fun r => Val.str (String.mk r.chars))) false).2.seqs =
      applyPerm exUnordKeysMsa.seqs
        (if false then (sortPerm [Val.str "TCC", Val.str "TCG",
          Val.str "TCA"]).reverse
         else sortPerm [Val.str "TCC", Val.str "TCG", Val.str "TCA"]) ∧
    (exUnordKeysMsa.sort
        (SortKey.byFun (fun r => Val.str (String.mk r.chars))) false).2.keys =
      some (applyPerm [Val.num 1, Val.str "abc", Val.noneV]
        (if false then (sortPerm [Val.str "TCC", Val.str "TCG",
          Val.str "TCA"]).reverse
         else sortPerm [Val.str "TCC", Val.str "TCG", Val.str "TCA"])) :=
  (c10_sort_ignores_stored_keys "TabularMSA" exUnordKeysMsa.seqs
      [Val.num 1, Val.str "abc", Val.noneV] none
      (SortKey.byFun (fun r => Val.str (String.mk r.chars))) false
      (fun h => SortKey.noConfusion h)).2
    [Val.str "TCC", Val.str "TCG", Val.str "TCA"] rfl (by decide)

theorem c5_witness :
    (exKeysMsa.append (mkDNA "" []) none none).1 =
      some Err.operationError ∧
    (exKeysMsa.append (mkDNA "" []) none none).2 = exKeysMsa :=
  ⟨by decide, (c5_atomic_on_failure exKeysMsa).1 (mkDNA "" []) none none
    Err.operationError (by decide)⟩

/-- C3 counterexample: a container with exactly one row whose row lacks the
metadata field `"id"` makes `sort(key="id")` fail with a lookup error, so
the claim's "for every metadata field name, including a field name that no
stored row possesses" is false for one-row containers. -/
theorem c3_counterexample :
    exOneRowMsa.seqs.length ≤ 1 ∧
    (exOneRowMsa.sort (SortKey.byField "id") false).1 =
      some Err.lookupFailure := by
  constructor
  · decide
  · rfl

/-- C3 amended: for every container with at most one row, `sort(key=name)`
succeeds and leaves the container unchanged whenever every stored row
possesses the field; with zero rows this holds for every field name, since
no row is ever inspected. -/
theorem c3_amended (m : TabularMSA) (name : String) (rev : Bool)
    (hwf : ∀ ks, m.keys = some ks → ks.length = m.seqs.length)
    (hle : m.seqs.length ≤ 1)
    (hfield : ∀ r ∈ m.seqs, (r.field name).isSome = true) :
    m.sort (SortKey.byField name) rev = (none, m) := by
  obtain ⟨cls, seqs, keys, md⟩ := m
  rcases seqs with _ | ⟨r, rest⟩
  · rcases keys with _ | ks
    · cases rev <;> rfl
    · have hks : ks = [] := by
        have := hwf ks rfl
        simpa [List.length_eq_zero] using this
      subst hks
      cases rev <;> rfl
  · rcases rest with _ | ⟨r2, rest2⟩
    · obtain ⟨v, hv⟩ := Option.isSome_iff_exists.mp
        (hfield r (List.mem_cons_self r []))
      rcases keys with _ | ks
      · cases rev <;>
          simp [TabularMSA.sort, TabularMSA.resolveSortVals, hv, List.allSome,
            List.mapM, List.mapM.loop, allCmpB, sortPerm, dec, applyPerm,
            List.insertionSort, List.orderedInsert]
      · obtain ⟨k, hk⟩ := List.length_eq_one.mp (by simpa using hwf ks rfl)
        subst hk
        cases rev <;>
          simp [TabularMSA.sort, TabularMSA.resolveSortVals, hv, List.allSome,
            List.mapM, List.mapM.loop, allCmpB, sortPerm, dec, applyPerm,
            List.insertionSort, List.orderedInsert]
    · simp at hle

theorem c3_amended_witness :
    exOneRowIdMsa.sort (SortKey.byField "id") false = (none, exOneRowIdMsa) :=
  c3_amended exOneRowIdMsa "id" false
    (by intro ks h; simp [exOneRowIdMsa] at h) (by decide) (by decide)

theorem c7_witness :
    fromDict "TabularMSA" exMixedDict =
      Except.ok ⟨"TabularMSA", exMixedDict.map Prod.snd,
        some (exMixedDict.map Prod.fst), none⟩ ∧
    TabularMSA.toDict ⟨"TabularMSA", exMixedDict.map Prod.snd,
        some (exMixedDict.map Prod.fst), none⟩ =
      Except.ok exMixedDict :=
  c7_dict_roundtrip "TabularMSA" exMixedDict
    (by decide) (by decide) (by decide) (by decide)

end Skbio
